import Mathlib

/-!
Verification of the CI failure-analysis pipeline of this repository:
log segmentation (`github_client.GitHubClient._attach_logs_to_steps`),
error extraction (`log_parser.LogParser`), analysis-context building and
reasoning-service response interpretation (`llm_analyzer.LLMAnalyzer`).

Python strings are modelled as `List Char`, `None`-able fields as `Option`,
and code that can raise returns `Except`.  The JSON values produced by
`json.loads` are modelled by the inductive `PyJson`, with numbers kept as
exact decimal values (mantissa over a power of ten) rather than IEEE
floats; none of the verified properties depends on rounding.
-/

namespace Cicd

/-- Python whitespace set used by `str.strip` and `\s` (ASCII range;
`\x0b` is vertical tab, `\x0c` form feed). -/
def pySpace (c : Char) : Bool :=
  c = ' ' || c = '\t' || c = '\n' || c = '\r' || c = '\x0b' || c = '\x0c'

/-- `line.strip()`. -/
def trimPy (l : List Char) : List Char :=
  ((l.dropWhile pySpace).reverse.dropWhile pySpace).reverse

/-- `text.split('\n')`: split at every newline, keeping empty pieces
(`''.split('\n') == ['']`). -/
def splitNL : List Char → List (List Char)
  | [] => [[]]
  | c :: cs =>
    if c = '\n' then [] :: splitNL cs
    else
      match splitNL cs with
      | [] => [[c]]
      | l :: ls => (c :: l) :: ls

/-- `'\n'.join(parts)`. -/
def joinNL : List (List Char) → List Char
  | [] => []
  | [l] => l
  | l :: ls => l ++ '\n' :: joinNL ls

/-- Python substring containment `pat in line`. -/
def hasSub (pat : List Char) : List Char → Bool
  | [] => pat.isEmpty
  | c :: cs => pat.isPrefixOf (c :: cs) || hasSub pat cs

/-- A step-boundary marker line: `'##[group]' in line`
(`_attach_logs_to_steps`). -/
def markerLine (l : List Char) : Bool := hasSub (("##[group]").toList) l

/-- Step metadata (`models.StepRun`) restricted to the fields the
pipeline reads; remote-API metadata (status, number, timestamps) is
irrelevant to the verified code paths. -/
structure StepRun where
  name : List Char
  conclusion : Option (List Char)
  log_content : Option (List Char) := none
deriving DecidableEq, Repr

/-- Job metadata (`models.JobRun`) restricted to the fields the pipeline
reads. -/
structure JobRun where
  name : List Char
  conclusion : Option (List Char)
  steps : List StepRun
deriving DecidableEq, Repr

/-- Workflow-run metadata (`models.WorkflowRun`) restricted to the fields
the pipeline reads. -/
structure WorkflowRun where
  id : Nat
  name : List Char
  conclusion : List Char
  head_branch : List Char
  head_sha : List Char
  repository : List Char
  jobs : List JobRun
deriving DecidableEq, Repr

/-- `job.steps[i].log_content = content` (in-place mutation of the step
list, modelled functionally). -/
def setStepLog (steps : List StepRun) (i : Nat) (content : List Char) : List StepRun :=
  match steps.get? i with
  | some s => steps.set i { s with log_content := some content }
  | none => steps

/-- Loop of `GitHubClient._attach_logs_to_steps`: stream the log lines;
on a marker line while steps remain (`current_step_idx < len(job.steps)`)
save the accumulated buffer to the previous step and restart the buffer,
which then receives the marker line itself; at end of stream save the
final buffer.  `n` is the (invariant) length of the step list. -/
def attachAux (n : Nat) : List (List Char) → Nat → List (List Char) → List StepRun → List StepRun
  | [], idx, buf, acc =>
    if buf ≠ [] ∧ 0 < idx then setStepLog acc (idx - 1) (joinNL buf) else acc
  | line :: rest, idx, buf, acc =>
    if markerLine line ∧ idx < n then
      attachAux n rest (idx + 1) [line]
        (if buf ≠ [] ∧ 0 < idx then setStepLog acc (idx - 1) (joinNL buf) else acc)
    else
      attachAux n rest idx (buf ++ [line]) acc

/-- `GitHubClient._attach_logs_to_steps(job, logs)`. -/
def attachLogsToSteps (steps : List StepRun) (logs : List Char) : List StepRun :=
  attachAux steps.length (splitNL logs) 0 [] steps

/-- Buffers the segmenter accumulates once the first effective marker has
been passed: `buf` is the open buffer, `idx` the current step pointer.
Specification-side description used to characterise `attachAux`. -/
def bufChunks (n : Nat) : Nat → List (List Char) → List (List Char) → List (List (List Char))
  | _, buf, [] => [buf]
  | idx, buf, line :: rest =>
    if markerLine line ∧ idx < n then buf :: bufChunks n (idx + 1) [line] rest
    else bufChunks n idx (buf ++ [line]) rest

/-- The per-step buffers produced from a whole line stream: content before
the first effective marker is skipped; with no effective marker there are
no chunks. -/
def logChunks (n : Nat) : List (List Char) → List (List (List Char))
  | [] => []
  | line :: rest =>
    if markerLine line ∧ 0 < n then bufChunks n 1 [line] rest
    else logChunks n rest

/-- ASCII `\w`. -/
def isWordChar (c : Char) : Bool := c.isAlpha || c.isDigit || c = '_'

/-- Case-insensitive literal prefix test (`re.IGNORECASE`). -/
def startsWithCI : List Char → List Char → Bool
  | [], _ => true
  | _ :: _, [] => false
  | p :: ps, c :: cs => (p.toLower == c.toLower) && startsWithCI ps cs

/-- Continuation test for `re.search(r'(?P<type>\w+Error): (?P<message>.+)', l, I)`
after at least one word character has been consumed: either the literal
`Error: ` (case-insensitive) starts here with at least one character after
it, or the current character extends `\w+` and the search continues. -/
def pyErrCont : List Char → Bool
  | [] => false
  | c :: cs =>
    (startsWithCI (("Error: ").toList) (c :: cs) && decide (7 < (c :: cs).length))
      || (isWordChar c && pyErrCont cs)

/-- `re.search` for the `python_error` pattern, returning `match.group(0)`
(which extends to the end of the line, `.+` being greedy): the leftmost
position starting a word character directly followed by a viable
continuation. -/
def searchPythonError : List Char → Option (List Char)
  | [] => none
  | c :: cs => if isWordChar c && pyErrCont cs then some (c :: cs) else searchPythonError cs

/-- `::` followed by a word character starts here. -/
def ccWordAt : List Char → Bool
  | ':' :: ':' :: c :: _ => isWordChar c
  | _ => false

/-- Index of the last position where `::` plus a word character occurs
(greedy `.+` picks the last viable separator). -/
def lastCCIdx : List Char → Option Nat
  | [] => none
  | c :: cs =>
    match lastCCIdx cs with
    | some i => some (i + 1)
    | none => if ccWordAt (c :: cs) then some 0 else none

/-- `re.search(r'FAILED .+::(?P<test>\w+)', l, I)` with `match.group(0)`:
`FAILED ` (7 chars) then at least one character, then the last viable
`::`, then the maximal word run. -/
def searchTestFailure : List Char → Option (List Char)
  | [] => none
  | c :: cs =>
    if startsWithCI (("FAILED ").toList) (c :: cs) then
      match lastCCIdx ((c :: cs).drop 8) with
      | some j =>
        let w := ((c :: cs).drop (8 + j + 2)).takeWhile isWordChar
        some ((c :: cs).take (8 + j + 2 + w.length))
      | none => searchTestFailure cs
    else searchTestFailure cs

/-- `re.search(r'error: (?P<message>.+)', l, I)` with `match.group(0)`. -/
def searchBuildError : List Char → Option (List Char)
  | [] => none
  | c :: cs =>
    if startsWithCI (("error: ").toList) (c :: cs) && decide (7 < (c :: cs).length)
    then some (c :: cs) else searchBuildError cs

/-- `re.search(r'npm ERR! (?P<message>.+)', l, I)` with `match.group(0)`. -/
def searchNpmError : List Char → Option (List Char)
  | [] => none
  | c :: cs =>
    if startsWithCI (("npm ERR! ").toList) (c :: cs) && decide (9 < (c :: cs).length)
    then some (c :: cs) else searchNpmError cs

/-- `TS\d+: .+` starts here (case-insensitive): `TS`, a maximal nonempty
digit run, then `: ` and at least one character.  Maximality is faithful
because `:` is not a digit, so the engine cannot backtrack into the run. -/
def tsAt (s : List Char) : Bool :=
  startsWithCI (("TS").toList) s &&
    (let ds := (s.drop 2).takeWhile Char.isDigit
     !ds.isEmpty &&
       (match (s.drop 2).drop ds.length with
        | ':' :: ' ' :: _ :: _ => true
        | _ => false))

/-- `re.search(r'TS\d+: (?P<message>.+)', l, I)` with `match.group(0)`. -/
def searchTsError : List Char → Option (List Char)
  | [] => none
  | c :: cs => if tsAt (c :: cs) then some (c :: cs) else searchTsError cs

/-- `re.search(r'Error: (?P<message>.+)', l, I)` with `match.group(0)`
(the `generic_error` pattern; under `re.IGNORECASE` its matching rule
coincides with the `build_error` one, which is tried first). -/
def searchGenericError : List Char → Option (List Char)
  | [] => none
  | c :: cs =>
    if startsWithCI (("Error: ").toList) (c :: cs) && decide (7 < (c :: cs).length)
    then some (c :: cs) else searchGenericError cs

/-- The six signature names of `LogParser.ERROR_PATTERNS`, in their fixed
priority order. -/
inductive ErrType where
  | python_error
  | test_failure
  | build_error
  | npm_error
  | typescript_error
  | generic_error
deriving DecidableEq, Repr

/-- Inner loop of `parse_step_logs`: try `ERROR_PATTERNS` in order and
`break` at the first `re.search` match; yields the signature name and the
matched text `match.group(0)`. -/
def firstSignature (l : List Char) : Option (ErrType × List Char) :=
  match searchPythonError l with
  | some m => some (ErrType.python_error, m)
  | none =>
  match searchTestFailure l with
  | some m => some (ErrType.test_failure, m)
  | none =>
  match searchBuildError l with
  | some m => some (ErrType.build_error, m)
  | none =>
  match searchNpmError l with
  | some m => some (ErrType.npm_error, m)
  | none =>
  match searchTsError l with
  | some m => some (ErrType.typescript_error, m)
  | none =>
  match searchGenericError l with
  | some m => some (ErrType.generic_error, m)
  | none => none

/-- `any(re.search(p[0], line, re.IGNORECASE) for p in self.ERROR_PATTERNS)`:
some signature matches the line (the first match exists iff any does). -/
def sigMatches (l : List Char) : Bool := (firstSignature l).isSome

/-- ASCII `[\w/.-]`. -/
def isFileChar (c : Char) : Bool := isWordChar c || c = '/' || c = '.' || c = '-'

/-- `int(digit_string)` for a nonempty decimal digit run. -/
def digitsToNat (ds : List Char) : Nat :=
  ds.foldl (fun n c => 10 * n + (c.toNat - 48)) 0

/-- Last split of the input as `pre ++ sep ++ digits ++ rest` with a
nonempty digit run directly after `sep`; returns `(pre, digits)`.
Models a greedy `.+` before a literal separator followed by `\d+`. -/
def lastSepDigits (sep : List Char) : List Char → Option (List Char × List Char)
  | [] => none
  | c :: cs =>
    match lastSepDigits sep cs with
    | some (pre, ds) => some (c :: pre, ds)
    | none =>
      if sep.isPrefixOf (c :: cs) then
        let ds := ((c :: cs).drop sep.length).takeWhile Char.isDigit
        if ds.isEmpty then none else some ([], ds)
      else none

/-- ` (` occurs right here with a remainder matching `.+:\d+`: the inner
match's `(file, digits)` with the file part greedy. -/
def atParenHere (c : Char) (cs : List Char) : Option (List Char × List Char) :=
  match c, cs with
  | ' ', '(' :: sub =>
    (match lastSepDigits ([':']) sub with
     | some (pre, ds) => if pre.isEmpty then none else some (pre, ds)
     | none => none)
  | _, _ => none

/-- Last occurrence of ` (` such that the remainder matches `.+:\d+`,
returning that inner match's `(file, digits)` (both `.+`s greedy: later
occurrences are preferred). -/
def lastAtParen : List Char → Option (List Char × List Char)
  | [] => none
  | c :: cs => lastAtParen cs <|> atParenHere c cs

/-- `re.match(r'^\s+File "(?P<file>.+)", line (?P<line>\d+)', line)` with
its `file`/`line` groups (greedy `.+`: last viable `", line ` split). -/
def stackPython (l : List Char) : Option (List Char × Nat) :=
  let ws := l.takeWhile pySpace
  if ws.isEmpty then none
  else
    let r := l.drop ws.length
    if (("File \"").toList).isPrefixOf r then
      match lastSepDigits (("\", line ").toList) (r.drop 6) with
      | some (file, ds) => if file.isEmpty then none else some (file, digitsToNat ds)
      | none => none
    else none

/-- `re.match(r'^\s+at .+ \((?P<file>.+):(?P<line>\d+)', line)` with its
groups: after `at `, the first `.+` is greedy, so the last ` (` whose
remainder matches `.+:\d+` wins; inside it the last `:`+digit split wins. -/
def stackJS (l : List Char) : Option (List Char × Nat) :=
  let ws := l.takeWhile pySpace
  if ws.isEmpty then none
  else
    let r := l.drop ws.length
    if (("at ").toList).isPrefixOf r then
      match lastAtParen ((r.drop 3).drop 1) with
      | some (file, ds) => some (file, digitsToNat ds)
      | none => none
    else none

/-- `re.match(r'^\s+(?P<file>[\w/.-]+):(?P<line>\d+)', line)` with its
groups.  `:` is outside the file character class and digits are inside
neither separator, so the maximal runs are faithful to the regex. -/
def stackGeneric (l : List Char) : Option (List Char × Nat) :=
  let ws := l.takeWhile pySpace
  if ws.isEmpty then none
  else
    let r := l.drop ws.length
    let run := r.takeWhile isFileChar
    if run.isEmpty then none
    else
      match r.drop run.length with
      | ':' :: rest =>
        let ds := rest.takeWhile Char.isDigit
        if ds.isEmpty then none else some (run, digitsToNat ds)
      | _ => none

/-- Inner loop over `STACK_TRACE_PATTERNS` with `break`: the first
pattern that `re.match`es the line, with its `file`/`line` groups. -/
def firstStackMatch (l : List Char) : Option (List Char × Nat) :=
  match stackPython l with
  | some r => some r
  | none =>
  match stackJS l with
  | some r => some r
  | none => stackGeneric l

/-- Structured record for one extracted error (`models.ErrorContext`). -/
structure ErrorContext where
  error_message : List Char
  error_type : ErrType
  line_number : Option Nat
  file_path : Option (List Char)
  stack_trace : List (List Char)
  surrounding_context : List (List Char)
deriving DecidableEq, Repr

/-- Python truthiness of the `file_path` local (`if not file_path`). -/
def fpFalsy : Option (List Char) → Bool
  | none => true
  | some f => f.isEmpty

/-- Lookahead loop of `_extract_error_context` over the window
`range(error_line_idx + 1, min(error_line_idx + 20, len(lines)))`: each
visited line is first tested against the stack-trace patterns (appending
the stripped line to `stack_trace` and, while no primary location is set,
recording its `file`/`line` groups), then the loop breaks if the line is
blank or matches an error signature. -/
def lookahead : List (List Char) → Option (List Char) → Option Nat → List (List Char) →
    Option (List Char) × Option Nat × List (List Char)
  | [], fp, ln, st => (fp, ln, st)
  | l :: rest, fp, ln, st =>
    let s :=
      match firstStackMatch l with
      | some (f, n) =>
        if fpFalsy fp then (some f, some n, st ++ [trimPy l])
        else (fp, ln, st ++ [trimPy l])
      | none => (fp, ln, st)
    if trimPy l = [] || sigMatches l then s
    else lookahead rest s.1 s.2.1 s.2.2

/-- `LogParser._extract_error_context(lines, error_line_idx, match, error_type)`;
`msg` is `match.group(0)`.  The surrounding context is
`lines[max(0, i-5) : min(len(lines), i+10)]` with blank lines dropped and
each kept line stripped. -/
def extractErrorContext (lines : List (List Char)) (i : Nat) (msg : List Char)
    (et : ErrType) : ErrorContext :=
  let stop := min (i + 20) lines.length
  let window := (lines.drop (i + 1)).take (stop - (i + 1))
  let r := lookahead window none none []
  let cstart := i - 5
  let cend := min lines.length (i + 10)
  let sur := (lines.drop cstart).take (cend - cstart)
  { error_message := msg
    error_type := et
    line_number := r.2.1
    file_path := r.1
    stack_trace := r.2.2
    surrounding_context := (sur.filter (fun l => trimPy l != [])).map trimPy }

/-- Outer loop of `parse_step_logs` over `enumerate(lines)`: for each
line the first matching signature (if any) yields one record. -/
def parseLines (lines : List (List Char)) : List (Nat × List Char) → List ErrorContext
  | [] => []
  | (i, l) :: rest =>
    match firstSignature l with
    | some (et, msg) => extractErrorContext lines i msg et :: parseLines lines rest
    | none => parseLines lines rest

/-- `LogParser.parse_step_logs(step)`: return `[]` when the log content is
absent or empty or the step's conclusion is not `"failure"`; otherwise
scan every line.  The function is total - extraction never raises. -/
def parseStepLogs (step : StepRun) : List ErrorContext :=
  match step.log_content with
  | none => []
  | some lc =>
    if lc = [] then []
    else if step.conclusion = some (("failure").toList) then
      let lines := splitNL lc
      parseLines lines lines.enum
    else []

/-- Exact decimal number `m / 10 ^ e`, the model of the numeric values
`json.loads` and `float` produce.  None of the verified properties
depends on IEEE rounding, so exact decimals are used. -/
structure JNum where
  m : Int
  e : Nat
deriving DecidableEq, Repr

/-- Decoded JSON values (the result of `json.loads`). -/
inductive PyJson where
  | null : PyJson
  | bool : Bool → PyJson
  | num : JNum → PyJson
  | str : List Char → PyJson
  | arr : List PyJson → PyJson
  | obj : List (List Char × PyJson) → PyJson

/-- JSON whitespace. -/
def jsonWs (c : Char) : Bool := c = ' ' || c = '\t' || c = '\n' || c = '\r'

/-- Integer part of a JSON number literal: `0` alone, or a maximal digit
run not starting with `0`. -/
def parseIntPart : List Char → Option (List Char × List Char)
  | '0' :: rest => some (('0') :: [], rest)
  | l =>
    let ds := l.takeWhile Char.isDigit
    if ds.isEmpty then none else some (ds, l.drop ds.length)

/-- Build the exact decimal `±(intDs.fracDs) * 10 ^ ex`. -/
def mkJNum (neg : Bool) (intDs fracDs : List Char) (ex : Int) : JNum :=
  let mAbs : Int := Int.ofNat (digitsToNat (intDs ++ fracDs))
  let m := if neg then -mAbs else mAbs
  let net : Int := ex - Int.ofNat fracDs.length
  if 0 ≤ net then { m := m * (10 : Int) ^ net.toNat, e := 0 }
  else { m := m, e := (-net).toNat }

/-- JSON number literal, following the grammar's optional fraction and
exponent groups (an incomplete group is simply not consumed, as with the
scanner's regular expression). -/
def parseJsonNumber (l : List Char) : Option (PyJson × List Char) :=
  let sl : Bool × List Char := match l with | '-' :: r => (true, r) | _ => (false, l)
  match parseIntPart sl.2 with
  | none => none
  | some (intDs, r1) =>
    let fr : List Char × List Char :=
      match r1 with
      | '.' :: r =>
        let ds := r.takeWhile Char.isDigit
        if ds.isEmpty then ([], r1) else (ds, r.drop ds.length)
      | _ => ([], r1)
    let ex : Int × List Char :=
      match fr.2 with
      | 'e' :: r | 'E' :: r =>
        let sr : Int × List Char :=
          match r with | '+' :: t => (1, t) | '-' :: t => (-1, t) | _ => (1, r)
        let ds := sr.2.takeWhile Char.isDigit
        if ds.isEmpty then (0, fr.2)
        else (sr.1 * Int.ofNat (digitsToNat ds), sr.2.drop ds.length)
      | _ => (0, fr.2)
    some (.num (mkJNum sl.1 intDs fr.1 ex.1), ex.2)

/-- Hexadecimal digit value. -/
def hexVal (c : Char) : Option Nat :=
  if c.isDigit then some (c.toNat - 48)
  else if 'a' ≤ c ∧ c ≤ 'f' then some (c.toNat - 87)
  else if 'A' ≤ c ∧ c ≤ 'F' then some (c.toNat - 55)
  else none

/-- JSON string body after the opening quote: ordinary characters (raw
control characters are rejected in strict mode) and the standard escape
sequences.  Surrogate-pair combination is not modelled (no claim depends
on it). -/
def parseJsonString : Nat → List Char → Option (List Char × List Char)
  | 0, _ => none
  | fuel + 1, l =>
    match l with
    | [] => none
    | '"' :: r => some ([], r)
    | '\\' :: e :: r =>
      let esc : Option (Char × List Char) :=
        match e, r with
        | '"', _ => some ('"', r)
        | '\\', _ => some ('\\', r)
        | '/', _ => some ('/', r)
        | 'b', _ => some ('\x08', r)
        | 'f', _ => some ('\x0c', r)
        | 'n', _ => some ('\n', r)
        | 'r', _ => some ('\r', r)
        | 't', _ => some ('\t', r)
        | 'u', h1 :: h2 :: h3 :: h4 :: r' =>
          match hexVal h1, hexVal h2, hexVal h3, hexVal h4 with
          | some a, some b, some c, some d =>
            some (Char.ofNat (((a * 16 + b) * 16 + c) * 16 + d), r')
          | _, _, _, _ => none
        | _, _ => none
      match esc with
      | some (c, r') => (parseJsonString fuel r').map (fun p => (c :: p.1, p.2))
      | none => none
    | c :: r =>
      if c.toNat < 32 then none
      else (parseJsonString fuel r).map (fun p => (c :: p.1, p.2))

mutual

/-- Recursive-descent JSON value parser (fuel-indexed so that every
recursion is structural and kernel-reducible). -/
def parseJsonValue : Nat → List Char → Option (PyJson × List Char)
  | 0, _ => none
  | fuel + 1, l =>
    match l.dropWhile jsonWs with
    | 'n' :: 'u' :: 'l' :: 'l' :: r => some (.null, r)
    | 't' :: 'r' :: 'u' :: 'e' :: r => some (.bool true, r)
    | 'f' :: 'a' :: 'l' :: 's' :: 'e' :: r => some (.bool false, r)
    | '"' :: r => (parseJsonString (r.length + 1) r).map (fun p => (.str p.1, p.2))
    | '[' :: r =>
      (match r.dropWhile jsonWs with
       | ']' :: r' => some (.arr [], r')
       | _ => (parseJsonItems fuel r).map (fun p => (.arr p.1, p.2)))
    | '{' :: r =>
      (match r.dropWhile jsonWs with
       | '}' :: r' => some (.obj [], r')
       | _ => (parseJsonMembers fuel r).map (fun p => (.obj p.1, p.2)))
    | r => parseJsonNumber r

/-- Comma-separated array items up to the closing bracket. -/
def parseJsonItems : Nat → List Char → Option (List PyJson × List Char)
  | 0, _ => none
  | fuel + 1, l =>
    match parseJsonValue fuel l with
    | none => none
    | some (v, r) =>
      match r.dropWhile jsonWs with
      | ',' :: r' => (parseJsonItems fuel r').map (fun p => (v :: p.1, p.2))
      | ']' :: r' => some (v :: [], r')
      | _ => none

/-- Comma-separated `"key": value` members up to the closing brace. -/
def parseJsonMembers : Nat → List Char → Option (List (List Char × PyJson) × List Char)
  | 0, _ => none
  | fuel + 1, l =>
    match l.dropWhile jsonWs with
    | '"' :: r =>
      (match parseJsonString (r.length + 1) r with
       | none => none
       | some (k, r1) =>
         match r1.dropWhile jsonWs with
         | ':' :: r2 =>
           (match parseJsonValue fuel r2 with
            | none => none
            | some (v, r3) =>
              match r3.dropWhile jsonWs with
              | ',' :: r4 => (parseJsonMembers fuel r4).map (fun p => ((k, v) :: p.1, p.2))
              | '}' :: r4 => some ((k, v) :: [], r4)
              | _ => none)
         | _ => none)
    | _ => none

end

/-- `json.loads(text)`: one JSON value with only whitespace around it,
else a `JSONDecodeError` (modelled as `none`).  The non-standard
`NaN`/`Infinity` constants accepted by Python are not modelled (no claim
depends on them). -/
def jsonLoads (l : List Char) : Option PyJson :=
  match parseJsonValue (2 * l.length + 4) l with
  | some (v, r) => if (r.dropWhile jsonWs).isEmpty then some v else none
  | none => none

/-- Value order on exact decimals: `a.m / 10^a.e ≤ b.m / 10^b.e`. -/
def jnumLE (a b : JNum) : Bool :=
  decide (a.m * (10 : Int) ^ b.e ≤ b.m * (10 : Int) ^ a.e)

/-- Python exception classes that `_parse_llm_response` can leak: they
are raised inside the `try` block but are not in its
`except (json.JSONDecodeError, KeyError)` clause. -/
inductive PyErr where
  | attributeError
  | valueError
  | typeError
deriving DecidableEq, Repr

/-- `float(s)` on a string: optional surrounding whitespace, an optional
sign, digits with an optional decimal point (`.5` and `5.` accepted) and
an optional exponent.  `inf`/`nan` spellings are not modelled (no claim
depends on them). -/
def floatOfChars (s : List Char) : Option JNum :=
  let t := trimPy s
  let sl : Bool × List Char :=
    match t with | '-' :: r => (true, r) | '+' :: r => (false, r) | _ => (false, t)
  let intDs := sl.2.takeWhile Char.isDigit
  let r1 := sl.2.drop intDs.length
  let fr : List Char × List Char :=
    match r1 with
    | '.' :: r => (r.takeWhile Char.isDigit, r.drop (r.takeWhile Char.isDigit).length)
    | _ => ([], r1)
  if intDs.isEmpty && fr.1.isEmpty then none
  else
    match fr.2 with
    | [] => some (mkJNum sl.1 intDs fr.1 0)
    | 'e' :: r | 'E' :: r =>
      let sr : Int × List Char :=
        match r with | '+' :: t' => (1, t') | '-' :: t' => (-1, t') | _ => (1, r)
      let ds := sr.2.takeWhile Char.isDigit
      if ds.isEmpty || !(sr.2.drop ds.length).isEmpty then none
      else some (mkJNum sl.1 intDs fr.1 (sr.1 * Int.ofNat (digitsToNat ds)))
    | _ => none

/-- `float(x)` on a decoded JSON value: numbers and booleans coerce,
strings are parsed (`ValueError` when unparsable), anything else raises
`TypeError`. -/
def pyFloat : PyJson → Except PyErr JNum
  | .num q => .ok q
  | .bool b => .ok (if b then { m := 1, e := 0 } else { m := 0, e := 0 })
  | .str s =>
    (match floatOfChars s with
     | some q => .ok q
     | none => .error PyErr.valueError)
  | .null => .error PyErr.typeError
  | .arr _ => .error PyErr.typeError
  | .obj _ => .error PyErr.typeError

/-- `data.get(key, default)`: Python dicts keep the last value bound to a
duplicated key, so lookup runs from the back of the parse-order list. -/
def dictGet (kvs : List (List Char × PyJson)) (k : List Char) (dflt : PyJson) : PyJson :=
  match kvs.reverse.find? (fun p => p.1 == k) with
  | some p => p.2
  | none => dflt

/-- Terminal analysis record (`models.FailureAnalysis`).  Fields filled
from `data.get(...)` keep their decoded JSON value. -/
structure FailureAnalysis where
  workflow_run_id : Nat
  summary : PyJson
  failed_jobs : List (List Char)
  failed_steps : List (List Char)
  error_contexts : List ErrorContext
  likely_cause : PyJson
  suggested_actions : PyJson
  confidence : JNum

/-- Clamp of an exact decimal to `[0, 1]`. -/
def clamp01 (q : JNum) : JNum :=
  if jnumLE q { m := 0, e := 0 } then { m := 0, e := 0 }
  else if jnumLE { m := 1, e := 0 } q then { m := 1, e := 0 }
  else q

/-- Modelled from the spec: the module `models.py` defining
`FailureAnalysis` is not among the provided sources (only its callers
are), so its constructor is modelled from the specification, whose data
model reads "confidence score in [0.0, 1.0]" and whose invariants read
"confidence is always clamped to [0.0, 1.0]"; every other field is
stored exactly as passed.  The caller `_parse_llm_response` itself
performs no clamping. -/
def FailureAnalysis.make (rid : Nat) (summary : PyJson) (fj fs : List (List Char))
    (ecs : List ErrorContext) (cause : PyJson) (acts : PyJson) (conf : JNum) :
    FailureAnalysis :=
  { workflow_run_id := rid, summary := summary, failed_jobs := fj, failed_steps := fs
    error_contexts := ecs, likely_cause := cause, suggested_actions := acts
    confidence := clamp01 conf }

/-- Response cleaning in `_parse_llm_response`: strip, then if the text
starts with a fenced code-block marker drop its first and last lines. -/
def cleanResponse (resp : List Char) : List Char :=
  let cleaned := trimPy resp
  if (("```").toList).isPrefixOf cleaned then joinNL (((splitNL cleaned).drop 1).dropLast)
  else cleaned

/-- `LLMAnalyzer._parse_llm_response(run_id, failed_jobs, failed_steps, errors, llm_response)`.
The `except` clause catches only `json.JSONDecodeError` and `KeyError`
(and `dict.get` never raises `KeyError`), so: a decode failure yields the
fallback record; a reply decoding to a non-object raises
`AttributeError` at `data.get`; an object whose `confidence` value
cannot be coerced by `float` raises `ValueError`/`TypeError`.  The
raised exceptions propagate to the caller. -/
def parseLLMResponse (run_id : Nat) (failed_jobs failed_steps : List (List Char))
    (errors : List ErrorContext) (llm_response : List Char) :
    Except PyErr FailureAnalysis :=
  match jsonLoads (cleanResponse llm_response) with
  | none =>
    .ok (FailureAnalysis.make run_id (.str (("Failed to parse LLM response").toList))
      failed_jobs failed_steps errors (.str (llm_response.take 500))
      (.arr [.str (("Review logs manually").toList)]) { m := 0, e := 0 })
  | some (.obj kvs) =>
    (match pyFloat (dictGet kvs (("confidence").toList) (.num { m := 5, e := 1 })) with
     | .ok c =>
       .ok (FailureAnalysis.make run_id
         (dictGet kvs (("summary").toList) (.str (("Analysis unavailable").toList)))
         failed_jobs failed_steps errors
         (dictGet kvs (("likely_cause").toList) (.str (("Unknown").toList)))
         (dictGet kvs (("suggested_actions").toList) (.arr []))
         c)
     | .error e => .error e)
  | some _ => .error PyErr.attributeError

/-- Digit rendering with explicit fuel to keep recursion structural. -/
def natDigitsFuel : Nat → Nat → List Char
  | 0, _ => []
  | fuel + 1, n => if n = 0 then [] else natDigitsFuel fuel (n / 10) ++ [Char.ofNat (48 + n % 10)]

/-- Decimal rendering of a natural number (f-string interpolation). -/
def natToChars (n : Nat) : List Char :=
  if n = 0 then ('0') :: [] else natDigitsFuel (n + 1) n

/-- The Python signature-name strings of `ERROR_PATTERNS`. -/
def errTypeStr : ErrType → List Char
  | .python_error => ("python_error").toList
  | .test_failure => ("test_failure").toList
  | .build_error => ("build_error").toList
  | .npm_error => ("npm_error").toList
  | .typescript_error => ("typescript_error").toList
  | .generic_error => ("generic_error").toList

/-- Lines contributed for one embedded error by `_build_analysis_context`:
`### Error {i}`, type, message, an optional location, the stack trace
capped to ten lines, then a blank separator.  Python truthiness guards:
an empty file path, a zero line number and an empty stack trace are all
falsy. -/
def errorSection (i : Nat) (e : ErrorContext) : List (List Char) :=
  [("### Error ").toList ++ natToChars i,
   ("Type: ").toList ++ errTypeStr e.error_type,
   ("Message: ").toList ++ e.error_message]
  ++ (match e.file_path with
      | some fp =>
        if fp = [] then []
        else
          [("Location: ").toList ++ fp ++
            (match e.line_number with
             | some n => if n = 0 then [] else (':') :: natToChars n
             | none => [])]
      | none => [])
  ++ (if e.stack_trace = [] then []
      else (("Stack trace:").toList) :: (e.stack_trace.take 10).map (fun l => ("  ").toList ++ l))
  ++ [[]]

/-- `for i, error in enumerate(errors[:5], 1)` body, numbering from 1. -/
def errorSections : Nat → List ErrorContext → List (List Char)
  | _, [] => []
  | i, e :: rest => errorSection i e ++ errorSections (i + 1) rest

/-- `LLMAnalyzer._build_analysis_context` as the `context_parts` list;
the returned document is their newline join.  Embedded error detail is
capped to `errors[:5]`. -/
def contextParts (wr : WorkflowRun) (failed_jobs failed_steps : List (List Char))
    (errors : List ErrorContext) : List (List Char) :=
  [("# CI Failure Analysis Request").toList,
   [],
   ("## Workflow Information").toList,
   ("- Repository: ").toList ++ wr.repository,
   ("- Workflow: ").toList ++ wr.name,
   ("- Branch: ").toList ++ wr.head_branch,
   ("- Commit: ").toList ++ wr.head_sha.take 8,
   ("- Status: ").toList ++ wr.conclusion,
   [],
   ("## Failed Jobs").toList]
  ++ failed_jobs.map (fun j => ("- ").toList ++ j)
  ++ [[], ("## Failed Steps").toList]
  ++ failed_steps.map (fun s => ("- ").toList ++ s)
  ++ [[], ("## Error Details").toList]
  ++ errorSections 1 (errors.take 5)

/-- The analysis document sent to the reasoning service. -/
def buildAnalysisContext (wr : WorkflowRun) (fj fs : List (List Char))
    (errors : List ErrorContext) : List Char :=
  joinNL (contextParts wr fj fs errors)

/-- Failed-step identifiers `f"{job.name}/{step.name}"` collected by
`analyze_workflow_failure` for one failed job, in step order. -/
def failedStepNames (j : JobRun) : List (List Char) :=
  (j.steps.filter (fun s => s.conclusion == some (("failure").toList))).map
    (fun s => j.name ++ ('/') :: s.name)

/-- Errors extracted from one failed job's failed steps, in step order. -/
def jobErrors (j : JobRun) : List ErrorContext :=
  ((j.steps.filter (fun s => s.conclusion == some (("failure").toList))).map parseStepLogs).flatten

/-- `LLMAnalyzer.analyze_workflow_failure`, with the reasoning service's
raw reply supplied as an argument (the network call `_query_llm` is the
external `ReasoningService` collaborator; the prompt it embeds is
`buildAnalysisContext` applied to the same collected data). -/
def analyzeWorkflowFailure (wr : WorkflowRun) (llm_response : List Char) :
    Except PyErr FailureAnalysis :=
  let fjobs := wr.jobs.filter (fun j => j.conclusion == some (("failure").toList))
  let failed_jobs := fjobs.map JobRun.name
  let failed_steps := (fjobs.map failedStepNames).flatten
  let all_errors := (fjobs.map jobErrors).flatten
  parseLLMResponse wr.id failed_jobs failed_steps all_errors llm_response

/-- Consecutive assignment of segment contents to steps, starting at
index `i` (specification-side view of the saves `attachAux` performs). -/
def writeLogs (acc : List StepRun) (i : Nat) : List (List Char) → List StepRun
  | [] => acc
  | c :: cs => writeLogs (setStepLog acc i c) (i + 1) cs

/-- The lookahead window the extractor actually scans:
`lines[i+1 : min(i+20, len(lines))]`, i.e. at most NINETEEN lines
(indices `i+1` through `i+19`), clamped to the buffer end. -/
def lookWindow (lines : List (List Char)) (i : Nat) : List (List Char) :=
  (lines.drop (i + 1)).take (min (i + 20) lines.length - (i + 1))

/-- Prefix of the window the lookahead loop visits: everything up to and
including the first blank or signature-matching line (that line is still
frame-checked before the loop breaks). -/
def scanUntilStop : List (List Char) → List (List Char)
  | [] => []
  | l :: rest => if trimPy l = [] || sigMatches l then [l] else l :: scanUntilStop rest

/-- The recognizable stack-frame lines among the visited ones, in
encounter order. -/
def frameLines (w : List (List Char)) : List (List Char) :=
  (scanUntilStop w).filter (fun l => (firstStackMatch l).isSome)

/-- `file`/`line` data of the first frame encountered, if any. -/
def firstFrameData (w : List (List Char)) : Option (List Char × Nat) :=
  match frameLines w with
  | [] => none
  | l :: _ => firstStackMatch l

/-- Primary `file`/`line` location after scanning window `w` starting
from state `(fp, ln)`: the first frame encountered sets it while the
`file_path` local is still falsy. -/
def primaryOf (fp : Option (List Char)) (ln : Option Nat) (w : List (List Char)) :
    Option (List Char) × Option Nat :=
  if fpFalsy fp then
    match firstFrameData w with
    | some d => (some d.1, some d.2)
    | none => (fp, ln)
  else (fp, ln)

/-- The surrounding-context window exactly as claim C8 words it: the five
lines before index `i` and up to ten lines after it (clamped to the
buffer bounds), with blank lines filtered out. -/
def surroundingWindowClaimC8 (lines : List (List Char)) (i : Nat) : List (List Char) :=
  (((lines.take i).drop (i - 5)) ++ ((lines.drop (i + 1)).take 10)).filter
    (fun l => trimPy l != [])

/-- Concrete input refuting the 20-line lookahead reading: an error match
at index 0, nineteen plain non-blank filler lines, and a recognizable
stack frame at index 20 (= `i + 20`, inside the claimed window). -/
def demoLinesC6 : List (List Char) :=
  (("NameError: boom").toList)
    :: ((List.range 19).map (fun k => ('x') :: natToChars (k + 1)))
    ++ [("  File \"m.py\", line 7").toList]

/-- Concrete input with two stack frames behind the match. -/
def demoLinesC7 : List (List Char) :=
  [("ValueError: boom").toList,
   ("  File \"a.py\", line 1").toList,
   ("  File \"b.py\", line 2").toList]

/-- Concrete input with twelve distinct non-blank lines and an error
match at index 0. -/
def demoLinesC8 : List (List Char) :=
  [("TypeError: zero").toList, ("l1").toList, ("l2").toList, ("l3").toList,
   ("l4").toList, ("l5").toList, ("l6").toList, ("l7").toList, ("l8").toList,
   ("l9").toList, ("l10").toList, ("l11").toList]

/-- Concrete failed step whose log matches the `python_error` and the
`generic_error` signatures on its first line. -/
def demoStepC4 : StepRun :=
  { name := ("test").toList, conclusion := some (("failure").toList),
    log_content := some (("ValueError: boom\nall good").toList) }

/-- Two steps of a failed job. -/
def demoSteps2 : List StepRun :=
  [{ name := ("checkout").toList, conclusion := some (("failure").toList) },
   { name := ("build").toList, conclusion := some (("failure").toList) }]

/-- A raw job log: pre-marker content, then two marked step segments. -/
def demoLogs : List Char :=
  ("setup text\n##[group]checkout\nco line\n##[group]build\nbuild line").toList

/-- A minimal distinct error record. -/
def demoErr (k : Nat) : ErrorContext :=
  { error_message := ('e') :: natToChars k, error_type := ErrType.generic_error,
    line_number := none, file_path := none, stack_trace := [], surrounding_context := [] }

/-- Six extracted records - one more than the embedding cap. -/
def demoErrs6 : List ErrorContext := (List.range 6).map demoErr

/-- Minimal workflow-run metadata. -/
def demoWR : WorkflowRun :=
  { id := 9, name := ("CI").toList, conclusion := ("failure").toList,
    head_branch := ("main").toList, head_sha := ("abcdef1234").toList,
    repository := ("o/r").toList, jobs := [] }

/-- A step that failed to produce a `"failure"` conclusion yet has error
text in its log. -/
def demoStepC9 : StepRun :=
  { name := ("build").toList, conclusion := some (("success").toList),
    log_content := some (("Error: boom").toList) }

/-- The `### Error ` heading test used to count embedded error sections. -/
def errHeaderP (l : List Char) : Bool := (("### Error ").toList).isPrefixOf l

/-! ## Lemmas -/

theorem clamp01_ge_zero (q : JNum) : jnumLE { m := 0, e := 0 } (clamp01 q) = true := by
  unfold clamp01
  split
  · decide
  · split
    · decide
    · rename_i h1 h2
      simp only [jnumLE, decide_eq_true_eq] at h1 h2 ⊢
      simp only [pow_zero, mul_one, one_mul, zero_mul] at h1 h2 ⊢
      omega

theorem clamp01_le_one (q : JNum) : jnumLE (clamp01 q) { m := 1, e := 0 } = true := by
  unfold clamp01
  split
  · decide
  · split
    · decide
    · rename_i h1 h2
      simp only [jnumLE, decide_eq_true_eq] at h1 h2 ⊢
      simp only [pow_zero, mul_one, one_mul, zero_mul] at h1 h2 ⊢
      omega

theorem parseLines_eq_filterMap (lines : List (List Char)) :
    ∀ ps : List (Nat × List Char),
      parseLines lines ps
        = ps.filterMap (fun p => (firstSignature p.2).map
            (fun s => extractErrorContext lines p.1 s.2 s.1)) := by
  intro ps
  induction ps with
  | nil => rfl
  | cons p rest ih =>
    obtain ⟨i, l⟩ := p
    cases hf : firstSignature l with
    | none => simp [parseLines, List.filterMap_cons, hf, ih]
    | some s =>
      obtain ⟨et, msg⟩ := s
      simp [parseLines, List.filterMap_cons, hf, ih]

theorem isPrefixOf_append_self (l x : List Char) : l.isPrefixOf (l ++ x) = true := by
  induction l with
  | nil => cases x <;> rfl
  | cons c cs ih => simp [List.isPrefixOf, ih]

theorem not_hdr_sp (a : List Char) :
    ¬ ((("### Error ").toList : List Char) <+: (' ' :: a)) := by
  rintro ⟨t, ht⟩
  simp at ht

theorem errHdr_dash (x : List Char) : errHeaderP (('-') :: x) = false := rfl

theorem countP_errorSection (i : Nat) (e : ErrorContext) :
    (errorSection i e).countP errHeaderP = 1 := by
  obtain ⟨msg, et, ln, fp, st, sur⟩ := e
  have hhd : errHeaderP ((("### Error ").toList) ++ natToChars i) = true := by
    unfold errHeaderP; exact isPrefixOf_append_self _ _
  cases fp with
  | none =>
    by_cases hst : st = [] <;>
      simp [errorSection, hst, hhd, List.countP_append, List.countP_cons,
        errHeaderP, List.isPrefixOf] <;>
      (intro a ha
       obtain ⟨l, hl, rfl⟩ := List.mem_map.mp (List.mem_of_mem_take ha)
       exact not_hdr_sp _)
  | some fpv =>
    by_cases hfp : fpv = [] <;> by_cases hst : st = [] <;>
      simp [errorSection, hfp, hst, hhd, List.countP_append, List.countP_cons,
        errHeaderP, List.isPrefixOf] <;>
      (intro a ha
       obtain ⟨l, hl, rfl⟩ := List.mem_map.mp (List.mem_of_mem_take ha)
       exact not_hdr_sp _)

theorem countP_errorSections (es : List ErrorContext) :
    ∀ k, (errorSections k es).countP errHeaderP = es.length := by
  induction es with
  | nil => intro k; rfl
  | cons e rest ih =>
    intro k
    simp only [errorSections, List.countP_append, countP_errorSection, ih, List.length_cons]
    omega

theorem countP_contextParts (wr : WorkflowRun) (fj fs : List (List Char))
    (errors : List ErrorContext) :
    (contextParts wr fj fs errors).countP errHeaderP = min 5 errors.length := by
  have hcomp : (errHeaderP ∘ fun j => ('-') :: (' ') :: j) = fun _ => false := by
    funext j
    simp [Function.comp, errHdr_dash]
  unfold contextParts
  simp [List.countP_append, List.countP_cons, List.countP_map, hcomp,
    errHeaderP, List.isPrefixOf, countP_errorSections, List.length_take]

theorem atParenHere_file_ne_nil (c : Char) (cs f ds : List Char)
    (h : atParenHere c cs = some (f, ds)) : f.isEmpty = false := by
  simp only [atParenHere] at h
  split at h
  · split at h
    · split at h
      · exact Option.noConfusion h
      · rename_i hni
        cases h
        simpa using hni
    · exact Option.noConfusion h
  · exact Option.noConfusion h

theorem lastAtParen_file_ne_nil : ∀ (l f ds : List Char),
    lastAtParen l = some (f, ds) → f.isEmpty = false := by
  intro l
  induction l with
  | nil => intro f ds h; exact Option.noConfusion h
  | cons c cs ih =>
    intro f ds h
    simp only [lastAtParen] at h
    cases heq : lastAtParen cs with
    | some r =>
      rw [heq] at h
      simp only [Option.some_orElse] at h
      cases h
      exact ih _ _ heq
    | none =>
      rw [heq] at h
      simp only [Option.none_orElse] at h
      exact atParenHere_file_ne_nil _ _ _ _ h

theorem stackPython_file_ne_nil (l f : List Char) (n : Nat)
    (h : stackPython l = some (f, n)) : f.isEmpty = false := by
  simp only [stackPython] at h
  split at h
  · exact Option.noConfusion h
  · split at h
    · split at h
      · split at h
        · exact Option.noConfusion h
        · rename_i hni
          cases h
          simpa using hni
      · exact Option.noConfusion h
    · exact Option.noConfusion h

theorem stackJS_file_ne_nil (l f : List Char) (n : Nat)
    (h : stackJS l = some (f, n)) : f.isEmpty = false := by
  simp only [stackJS] at h
  split at h
  · exact Option.noConfusion h
  · split at h
    · split at h
      · rename_i heq
        cases h
        exact lastAtParen_file_ne_nil _ _ _ heq
      · exact Option.noConfusion h
    · exact Option.noConfusion h

theorem stackGeneric_file_ne_nil (l f : List Char) (n : Nat)
    (h : stackGeneric l = some (f, n)) : f.isEmpty = false := by
  simp only [stackGeneric] at h
  split at h
  · exact Option.noConfusion h
  · split at h
    · exact Option.noConfusion h
    · rename_i hrun
      split at h
      · split at h
        · exact Option.noConfusion h
        · cases h
          simpa using hrun
      · exact Option.noConfusion h

theorem firstStackMatch_file_ne_nil (l f : List Char) (n : Nat)
    (h : firstStackMatch l = some (f, n)) : f.isEmpty = false := by
  simp only [firstStackMatch] at h
  split at h
  · rename_i r heq
    cases h
    exact stackPython_file_ne_nil _ _ _ heq
  · split at h
    · rename_i r heq
      cases h
      exact stackJS_file_ne_nil _ _ _ heq
    · exact stackGeneric_file_ne_nil _ _ _ h

theorem lookahead_eq : ∀ (w : List (List Char)) (fp : Option (List Char)) (ln : Option Nat)
    (st : List (List Char)),
    lookahead w fp ln st
      = ((primaryOf fp ln w).1, (primaryOf fp ln w).2, st ++ (frameLines w).map trimPy) := by
  intro w
  induction w with
  | nil =>
    intro fp ln st
    simp [lookahead, primaryOf, frameLines, firstFrameData, scanUntilStop]
  | cons l rest ih =>
    intro fp ln st
    by_cases hstop : (trimPy l = [] || sigMatches l) = true
    · cases hm : firstStackMatch l with
      | none =>
        simp [lookahead, hm, hstop, primaryOf, frameLines, firstFrameData, scanUntilStop]
      | some d =>
        obtain ⟨fv, nv⟩ := d
        by_cases hfp : fpFalsy fp = true <;>
          simp [lookahead, hm, hstop, hfp, primaryOf, frameLines, firstFrameData, scanUntilStop]
    · cases hm : firstStackMatch l with
      | none =>
        simp only [lookahead, hm, hstop, if_false, Bool.false_eq_true]
        rw [ih]
        simp [primaryOf, frameLines, firstFrameData, scanUntilStop, hstop, hm]
      | some d =>
        obtain ⟨fv, nv⟩ := d
        have hne : fv.isEmpty = false := firstStackMatch_file_ne_nil _ _ _ hm
        by_cases hfp : fpFalsy fp = true
        · simp only [lookahead, hm, hstop, hfp, if_true, Bool.false_eq_true]
          rw [ih]
          have hfv : fpFalsy (some fv) = false := by simp [fpFalsy, hne]
          simp [primaryOf, frameLines, firstFrameData, scanUntilStop, hstop, hm, hfp, hfv]
        · simp only [lookahead, hm, hstop, hfp, Bool.false_eq_true]
          rw [ih]
          simp [primaryOf, frameLines, firstFrameData, scanUntilStop, hstop, hm, hfp]

theorem setStepLog_cons_succ (a : StepRun) (as : List StepRun) (j : Nat) (c : List Char) :
    setStepLog (a :: as) (j + 1) c = a :: setStepLog as j c := by
  unfold setStepLog
  cases h : as.get? j with
  | none => rw [show (a :: as).get? (j + 1) = as.get? j from rfl, h]
  | some s =>
    rw [show (a :: as).get? (j + 1) = as.get? j from rfl, h]
    rfl

theorem setStepLog_cons_zero (a : StepRun) (as : List StepRun) (c : List Char) :
    setStepLog (a :: as) 0 c = { a with log_content := some c } :: as := rfl

theorem writeLogs_cons_succ (a : StepRun) : ∀ (cs : List (List Char)) (as : List StepRun)
    (i : Nat), writeLogs (a :: as) (i + 1) cs = a :: writeLogs as i cs := by
  intro cs
  induction cs with
  | nil => intro as i; rfl
  | cons c cs ih =>
    intro as i
    rw [writeLogs, writeLogs, setStepLog_cons_succ, ih]

theorem writeLogs_map_zero : ∀ (cs : List (List Char)) (acc : List StepRun),
    cs.length ≤ acc.length →
    (writeLogs acc 0 cs).map StepRun.log_content
      = cs.map some ++ ((acc.map StepRun.log_content).drop cs.length) := by
  intro cs
  induction cs with
  | nil => intro acc h; simp [writeLogs]
  | cons c cs ih =>
    intro acc h
    cases acc with
    | nil => simp at h
    | cons a as =>
      rw [writeLogs, setStepLog_cons_zero, writeLogs_cons_succ]
      have hlen : cs.length ≤ as.length := by
        simpa [List.length_cons, Nat.succ_le_succ_iff] using h
      simp [ih as hlen]

theorem attachAux_eq_writeLogs (n : Nat) : ∀ (ls : List (List Char)) (idx : Nat)
    (buf : List (List Char)) (acc : List StepRun), 1 ≤ idx → buf ≠ [] →
    attachAux n ls idx buf acc
      = writeLogs acc (idx - 1) ((bufChunks n idx buf ls).map joinNL) := by
  intro ls
  induction ls with
  | nil =>
    intro idx buf acc h1 hb
    show (if buf ≠ [] ∧ 0 < idx then setStepLog acc (idx - 1) (joinNL buf) else acc) = _
    rw [if_pos ⟨hb, h1⟩]
    rfl
  | cons l rest ih =>
    intro idx buf acc h1 hb
    have e1 : idx - 1 + 1 = idx := by omega
    by_cases hm : (markerLine l = true ∧ idx < n)
    · show (if markerLine l = true ∧ idx < n then
          attachAux n rest (idx + 1) [l]
            (if buf ≠ [] ∧ 0 < idx then setStepLog acc (idx - 1) (joinNL buf) else acc)
        else attachAux n rest idx (buf ++ [l]) acc) = _
      rw [if_pos hm, if_pos ⟨hb, h1⟩]
      rw [ih (idx + 1) [l] _ (by omega) (by simp)]
      have hbc : bufChunks n idx buf (l :: rest)
          = buf :: bufChunks n (idx + 1) [l] rest := by
        show (if markerLine l = true ∧ idx < n then buf :: bufChunks n (idx + 1) [l] rest
          else bufChunks n idx (buf ++ [l]) rest) = _
        rw [if_pos hm]
      rw [hbc, List.map_cons, writeLogs, e1]
      simp
    · show (if markerLine l = true ∧ idx < n then
          attachAux n rest (idx + 1) [l]
            (if buf ≠ [] ∧ 0 < idx then setStepLog acc (idx - 1) (joinNL buf) else acc)
        else attachAux n rest idx (buf ++ [l]) acc) = _
      rw [if_neg hm]
      have hbc : bufChunks n idx buf (l :: rest)
          = bufChunks n idx (buf ++ [l]) rest := by
        show (if markerLine l = true ∧ idx < n then buf :: bufChunks n (idx + 1) [l] rest
          else bufChunks n idx (buf ++ [l]) rest) = _
        rw [if_neg hm]
      rw [hbc]
      exact ih idx (buf ++ [l]) acc h1 (by simp)

theorem attachAux_nil (n idx : Nat) (buf : List (List Char)) (acc : List StepRun) :
    attachAux n [] idx buf acc
      = if buf ≠ [] ∧ 0 < idx then setStepLog acc (idx - 1) (joinNL buf) else acc := rfl

theorem attachAux_cons (n : Nat) (l : List Char) (rest : List (List Char)) (idx : Nat)
    (buf : List (List Char)) (acc : List StepRun) :
    attachAux n (l :: rest) idx buf acc
      = if markerLine l = true ∧ idx < n then
          attachAux n rest (idx + 1) [l]
            (if buf ≠ [] ∧ 0 < idx then setStepLog acc (idx - 1) (joinNL buf) else acc)
        else attachAux n rest idx (buf ++ [l]) acc := rfl

theorem bufChunks_cons (n idx : Nat) (buf : List (List Char)) (l : List Char)
    (rest : List (List Char)) :
    bufChunks n idx buf (l :: rest)
      = if markerLine l = true ∧ idx < n then buf :: bufChunks n (idx + 1) [l] rest
        else bufChunks n idx (buf ++ [l]) rest := rfl

theorem logChunks_cons (n : Nat) (l : List Char) (rest : List (List Char)) :
    logChunks n (l :: rest)
      = if markerLine l = true ∧ 0 < n then bufChunks n 1 [l] rest
        else logChunks n rest := rfl

theorem bufChunks_length_le (n : Nat) : ∀ (ls buf : List (List Char)) (idx : Nat),
    1 ≤ idx → idx ≤ n → idx - 1 + (bufChunks n idx buf ls).length ≤ n := by
  intro ls
  induction ls with
  | nil =>
    intro buf idx h1 h2
    simp [bufChunks]
    omega
  | cons l rest ih =>
    intro buf idx h1 h2
    rw [bufChunks_cons]
    by_cases hm : (markerLine l = true ∧ idx < n)
    · rw [if_pos hm]
      have := ih [l] (idx + 1) (by omega) (by omega)
      simp only [List.length_cons] at this ⊢
      omega
    · rw [if_neg hm]
      exact ih (buf ++ [l]) idx h1 h2

theorem bufChunks_length_le_count (n : Nat) : ∀ (ls buf : List (List Char)) (idx : Nat),
    (bufChunks n idx buf ls).length ≤ 1 + List.countP markerLine ls := by
  intro ls
  induction ls with
  | nil => intro buf idx; simp [bufChunks]
  | cons l rest ih =>
    intro buf idx
    rw [bufChunks_cons]
    have hc : List.countP markerLine (l :: rest)
        = List.countP markerLine rest + (if markerLine l then 1 else 0) :=
      List.countP_cons _ _ _
    by_cases hm : (markerLine l = true ∧ idx < n)
    · rw [if_pos hm]
      have := ih [l] (idx + 1)
      rw [hc, if_pos hm.1]
      simp only [List.length_cons]
      omega
    · rw [if_neg hm]
      have := ih (buf ++ [l]) idx
      rw [hc]
      split <;> omega

theorem bufChunks_flatten (n : Nat) : ∀ (ls buf : List (List Char)) (idx : Nat),
    (bufChunks n idx buf ls).flatten = buf ++ ls := by
  intro ls
  induction ls with
  | nil => intro buf idx; simp [bufChunks]
  | cons l rest ih =>
    intro buf idx
    rw [bufChunks_cons]
    by_cases hm : (markerLine l = true ∧ idx < n)
    · rw [if_pos hm]
      simp [ih [l]]
    · rw [if_neg hm]
      simp [ih (buf ++ [l])]

theorem bufChunks_heads_marker (n : Nat) : ∀ (ls buf : List (List Char)) (idx : Nat)
    (hd : List Char) (t : List (List Char)), buf = hd :: t → markerLine hd = true →
    ∀ c ∈ bufChunks n idx buf ls, ∃ h2 t2, c = h2 :: t2 ∧ markerLine h2 = true := by
  intro ls
  induction ls with
  | nil =>
    intro buf idx hd t hbuf hmk c hc
    simp [bufChunks] at hc
    subst hc
    exact ⟨hd, t, hbuf, hmk⟩
  | cons l rest ih =>
    intro buf idx hd t hbuf hmk c hc
    rw [bufChunks_cons] at hc
    by_cases hm : (markerLine l = true ∧ idx < n)
    · rw [if_pos hm] at hc
      rcases List.mem_cons.mp hc with rfl | hc'
      · exact ⟨hd, t, hbuf, hmk⟩
      · exact ih [l] (idx + 1) l [] rfl hm.1 c hc'
    · rw [if_neg hm] at hc
      exact ih (buf ++ [l]) idx hd (t ++ [l]) (by rw [hbuf]; rfl) hmk c hc

theorem logChunks_length_le_count (n : Nat) : ∀ (ls : List (List Char)),
    (logChunks n ls).length ≤ List.countP markerLine ls := by
  intro ls
  induction ls with
  | nil => simp [logChunks]
  | cons l rest ih =>
    rw [logChunks_cons]
    have hc : List.countP markerLine (l :: rest)
        = List.countP markerLine rest + (if markerLine l then 1 else 0) :=
      List.countP_cons _ _ _
    by_cases hm : (markerLine l = true ∧ 0 < n)
    · rw [if_pos hm]
      have := bufChunks_length_le_count n rest [l] 1
      rw [hc, if_pos hm.1]
      omega
    · rw [if_neg hm, hc]
      split <;> omega

theorem logChunks_length_le (n : Nat) : ∀ (ls : List (List Char)),
    (logChunks n ls).length ≤ n := by
  intro ls
  induction ls with
  | nil => simp [logChunks]
  | cons l rest ih =>
    rw [logChunks_cons]
    by_cases hm : (markerLine l = true ∧ 0 < n)
    · rw [if_pos hm]
      have := bufChunks_length_le n rest [l] 1 (le_refl 1) hm.2
      omega
    · rw [if_neg hm]
      exact ih

theorem logChunks_heads_marker (n : Nat) : ∀ (ls : List (List Char)) (c : List (List Char)),
    c ∈ logChunks n ls → ∃ hd tl, c = hd :: tl ∧ markerLine hd = true := by
  intro ls
  induction ls with
  | nil => intro c hc; simp [logChunks] at hc
  | cons l rest ih =>
    intro c hc
    rw [logChunks_cons] at hc
    by_cases hm : (markerLine l = true ∧ 0 < n)
    · rw [if_pos hm] at hc
      exact bufChunks_heads_marker n rest [l] 1 l [] rfl hm.1 c hc
    · rw [if_neg hm] at hc
      exact ih c hc

theorem logChunks_skip (n : Nat) : ∀ (pre ls : List (List Char)),
    (∀ p ∈ pre, markerLine p = false) → logChunks n (pre ++ ls) = logChunks n ls := by
  intro pre
  induction pre with
  | nil => intro ls _; rfl
  | cons p ps ih =>
    intro ls h
    rw [List.cons_append, logChunks_cons, if_neg]
    · exact ih ls (fun x hx => h x (List.mem_cons_of_mem _ hx))
    · have hp := h p (List.mem_cons_self _ _)
      simp [hp]

theorem logChunks_flatten_suffix (n : Nat) (pre : List (List Char)) (l : List Char)
    (rest : List (List Char)) (hpre : ∀ p ∈ pre, markerLine p = false)
    (hl : markerLine l = true) (hn : 0 < n) :
    (logChunks n (pre ++ l :: rest)).flatten = l :: rest := by
  rw [logChunks_skip n pre _ hpre, logChunks_cons, if_pos ⟨hl, hn⟩, bufChunks_flatten]
  rfl

theorem markerLine_ne_nil (l : List Char) (h : markerLine l = true) : l ≠ [] := by
  intro he
  subst he
  exact absurd h (by decide)

theorem joinNL_cons_ne_nil (hd : List Char) (tl : List (List Char)) (h : hd ≠ []) :
    joinNL (hd :: tl) ≠ [] := by
  cases tl with
  | nil => simpa [joinNL] using h
  | cons x xs => simp [joinNL, h]

theorem attachAux_zero_no_eff (n : Nat) : ∀ (ls buf : List (List Char)) (acc : List StepRun),
    (∀ l ∈ ls, ¬(markerLine l = true ∧ 0 < n)) → attachAux n ls 0 buf acc = acc := by
  intro ls
  induction ls with
  | nil =>
    intro buf acc _
    rw [attachAux_nil, if_neg (by simp)]
  | cons l rest ih =>
    intro buf acc h
    rw [attachAux_cons, if_neg (h l (List.mem_cons_self _ _))]
    exact ih (buf ++ [l]) acc (fun x hx => h x (List.mem_cons_of_mem _ hx))

theorem attachAux_zero_map (n : Nat) : ∀ (ls buf : List (List Char)) (acc : List StepRun),
    acc.length = n →
    (attachAux n ls 0 buf acc).map StepRun.log_content
      = ((logChunks n ls).map (fun c => some (joinNL c)))
        ++ ((acc.map StepRun.log_content).drop (logChunks n ls).length) := by
  intro ls
  induction ls with
  | nil =>
    intro buf acc _
    rw [attachAux_nil, if_neg (by simp)]
    simp [logChunks]
  | cons l rest ih =>
    intro buf acc hn
    rw [attachAux_cons, logChunks_cons]
    by_cases hm : (markerLine l = true ∧ 0 < n)
    · rw [if_pos hm, if_pos hm, if_neg (by simp)]
      rw [attachAux_eq_writeLogs n rest 1 [l] acc (le_refl 1) (by simp)]
      have hlen : ((bufChunks n 1 [l] rest).map joinNL).length ≤ acc.length := by
        rw [List.length_map, hn]
        have := bufChunks_length_le n rest [l] 1 (le_refl 1) hm.2
        omega
      rw [show (1 : Nat) - 1 = 0 from rfl, writeLogs_map_zero _ _ hlen]
      rw [List.length_map, List.map_map]
      rfl
    · rw [if_neg hm, if_neg hm]
      exact ih (buf ++ [l]) acc hn

/-! ## Claims -/

/-- C9: for every step whose conclusion is not `"failure"`, or whose
attached log content is empty or absent, the extractor returns an empty
record list (the failure-outcome precondition is an explicit guard at the
public entry point `parse_step_logs`, and the function is total). -/
theorem c9_extractor_guard (step : StepRun)
    (h : step.log_content = none ∨ step.log_content = some [] ∨
      step.conclusion ≠ some (("failure").toList)) :
    parseStepLogs step = [] := by
  rcases h with h | h | h
  · simp [parseStepLogs, h]
  · simp [parseStepLogs, h]
  · cases hlc : step.log_content with
    | none => simp [parseStepLogs, hlc]
    | some lc =>
      simp only [parseStepLogs, hlc]
      simp
      intro _ hb
      exact absurd hb h

theorem c9_extractor_guard_witness : parseStepLogs demoStepC9 = [] :=
  c9_extractor_guard _ (Or.inr (Or.inr (by decide)))

/-- C1: the response interpreter's fallback covers only genuine JSON
decode failures, where it indeed returns the deterministic record claimed
(summary "Failed to parse LLM response", the first 500 characters of the
raw reply as likely cause, the single action "Review logs manually",
confidence 0.0) - third conjunct.  But the reply `[1]` is valid JSON of
the wrong shape (first conjunct), and on it `data.get` raises an
`AttributeError` that the `except (json.JSONDecodeError, KeyError)`
clause does not catch, so the parse failure propagates to the caller
(second conjunct), contradicting the claim. -/
theorem c1_fallback_divergence :
    jsonLoads (("[1]").toList) = some (.arr [.num { m := 1, e := 0 }]) ∧
    parseLLMResponse 7 [] [] [] (("[1]").toList) = .error PyErr.attributeError ∧
    parseLLMResponse 7 [] [] [] (("oops").toList)
      = .ok (FailureAnalysis.make 7 (.str (("Failed to parse LLM response").toList)) [] [] []
          (.str (("oops").toList)) (.arr [.str (("Review logs manually").toList)])
          { m := 0, e := 0 }) :=
  ⟨rfl, rfl, rfl⟩

/-- C2: every analysis record the response interpreter actually returns -
on the successful-parse path and on the fallback path alike - carries a
confidence inside `[0.0, 1.0]`, whatever confidence value the reply
contained.  (Relies on the clamping constructor modelled from the spec,
`FailureAnalysis.make`; the interpreter itself does not clamp.) -/
theorem c2_confidence_in_range (rid : Nat) (fj fs : List (List Char))
    (errors : List ErrorContext) (raw : List Char) (fa : FailureAnalysis)
    (h : parseLLMResponse rid fj fs errors raw = .ok fa) :
    jnumLE { m := 0, e := 0 } fa.confidence = true ∧
    jnumLE fa.confidence { m := 1, e := 0 } = true := by
  unfold parseLLMResponse at h
  split at h
  · cases h
    exact ⟨clamp01_ge_zero _, clamp01_le_one _⟩
  · split at h
    · cases h
      exact ⟨clamp01_ge_zero _, clamp01_le_one _⟩
    · cases h
  · cases h

/-- C4: the extractor tests the signatures in their fixed priority order
and emits at most one record per line - the scan is exactly a filterMap
of the first matching signature over the enumerated lines (first
conjunct); a line matching the `python_error` signature is always
classified `python_error` (second conjunct), and in particular a line
matching both that specific signature and the generic `Error:` signature
is never classified as the generic type (third conjunct). -/
theorem c4_priority_order (step : StepRun) (lc : List Char)
    (hlc : step.log_content = some lc) (hne : lc ≠ [])
    (hcc : step.conclusion = some (("failure").toList)) :
    parseStepLogs step
      = (splitNL lc).enum.filterMap
          (fun p => (firstSignature p.2).map
            (fun s => extractErrorContext (splitNL lc) p.1 s.2 s.1)) ∧
    (∀ l m, searchPythonError l = some m →
      firstSignature l = some (ErrType.python_error, m)) ∧
    (∀ l m m', searchPythonError l = some m → searchGenericError l = some m' →
      (firstSignature l).map Prod.fst ≠ some ErrType.generic_error) := by
  refine ⟨?_, ?_, ?_⟩
  · simp only [parseStepLogs, hlc]
    rw [if_neg hne, if_pos hcc]
    exact parseLines_eq_filterMap _ _
  · intro l m hm
    simp [firstSignature, hm]
  · intro l m m' hm _
    simp [firstSignature, hm]

theorem c4_priority_order_witness :
    (parseStepLogs demoStepC4
      = (splitNL (("ValueError: boom\nall good").toList)).enum.filterMap
          (fun p => (firstSignature p.2).map
            (fun s => extractErrorContext
              (splitNL (("ValueError: boom\nall good").toList)) p.1 s.2 s.1))) ∧
    firstSignature (("ValueError: boom").toList)
      = some (ErrType.python_error, ("ValueError: boom").toList) ∧
    (firstSignature (("ValueError: boom").toList)).map Prod.fst
      ≠ some ErrType.generic_error := by
  have h := c4_priority_order demoStepC4 (("ValueError: boom\nall good").toList)
    rfl (by decide) rfl
  exact ⟨h.1, h.2.1 (("ValueError: boom").toList) (("ValueError: boom").toList) (by decide),
    h.2.2 (("ValueError: boom").toList) (("ValueError: boom").toList)
      (("Error: boom").toList) (by decide) (by decide)⟩

/-- C3: the context builder embeds detail for at most the first five
extracted records - the document depends only on `errors[:5]` (first
conjunct) and contains exactly `min 5 |errors|` error-detail sections
(second conjunct) - while every analysis record the interpreter returns
carries the full extracted list in `error_contexts` (third conjunct). -/
theorem c3_context_cap (wr : WorkflowRun) (fj fs : List (List Char))
    (errors : List ErrorContext) :
    buildAnalysisContext wr fj fs errors = buildAnalysisContext wr fj fs (errors.take 5) ∧
    (contextParts wr fj fs errors).countP errHeaderP = min 5 errors.length ∧
    (∀ rid raw fa, parseLLMResponse rid fj fs errors raw = .ok fa →
      fa.error_contexts = errors) := by
  refine ⟨?_, countP_contextParts wr fj fs errors, ?_⟩
  · simp [buildAnalysisContext, contextParts, List.take_take]
  · intro rid raw fa h
    unfold parseLLMResponse at h
    split at h
    · cases h; rfl
    · split at h
      · cases h; rfl
      · exact Except.noConfusion h
    · exact Except.noConfusion h

theorem c3_context_cap_witness :
    (buildAnalysisContext demoWR [] [] demoErrs6
      = buildAnalysisContext demoWR [] [] (demoErrs6.take 5)) ∧
    (contextParts demoWR [] [] demoErrs6).countP errHeaderP = min 5 demoErrs6.length ∧
    (FailureAnalysis.make 9 (.str (("Failed to parse LLM response").toList)) [] [] demoErrs6
        (.str (("oops").toList)) (.arr [.str (("Review logs manually").toList)])
        { m := 0, e := 0 }).error_contexts = demoErrs6 := by
  have h := c3_context_cap demoWR [] [] demoErrs6
  exact ⟨h.1, h.2.1, h.2.2 9 (("oops").toList) _ rfl⟩

theorem c2_confidence_in_range_witness :
    jnumLE { m := 0, e := 0 }
      (FailureAnalysis.make 3 (.str (("Analysis unavailable").toList)) [] [] []
        (.str (("Unknown").toList)) (.arr []) { m := 2, e := 0 }).confidence = true ∧
    jnumLE
      (FailureAnalysis.make 3 (.str (("Analysis unavailable").toList)) [] [] []
        (.str (("Unknown").toList)) (.arr []) { m := 2, e := 0 }).confidence
      { m := 1, e := 0 } = true :=
  c2_confidence_in_range 3 [] [] [] (("\x7b\"confidence\": 2\x7d").toList) _ rfl

/-- C6 (amended): the stack-frame lookahead scans up to NINETEEN
subsequent lines - `lines[i+1 : min(i+20, len)]`, indices `i+1` through
`i+19` clamped to the buffer end - visiting the window only up to and
including the first blank or signature-matching line; the record's stack
trace is exactly the stripped frame-shaped lines of that visited prefix,
in order. -/
theorem c6_lookahead_window (lines : List (List Char)) (i : Nat) (msg : List Char)
    (et : ErrType) :
    (extractErrorContext lines i msg et).stack_trace
      = (frameLines (lookWindow lines i)).map trimPy ∧
    (lookWindow lines i).length ≤ 19 := by
  constructor
  · show (lookahead (lookWindow lines i) none none []).2.2 = _
    rw [lookahead_eq]
    simp
  · simp only [lookWindow, List.length_take, List.length_drop]
    omega

/-- C6 falsified as stated: with an error match at index 0, nineteen
plain lines, and a recognizable stack frame at index 20 = `i + 20`
(inside the claimed 20-line window, with no blank or signature line
anywhere in indices 1..20 to stop the scan early), the extractor still
records no stack frame and no file location, because the code's window
`range(i+1, min(i+20, len))` ends at index `i+19`. -/
theorem c6_lookahead_window_counterexample :
    (firstSignature (("NameError: boom").toList)).map Prod.fst
      = some ErrType.python_error ∧
    demoLinesC6.length = 21 ∧
    (firstStackMatch (("  File \"m.py\", line 7").toList)).isSome = true ∧
    ((demoLinesC6.drop 1).take 20).all
      (fun l => !(trimPy l == [] || sigMatches l)) = true ∧
    (extractErrorContext demoLinesC6 0 (("NameError: boom").toList)
        ErrType.python_error).stack_trace = [] ∧
    (extractErrorContext demoLinesC6 0 (("NameError: boom").toList)
        ErrType.python_error).file_path = none :=
  ⟨rfl, rfl, rfl, rfl, rfl, rfl⟩

/-- C7: when the effectively scanned window contains at least one
recognizable stack-frame line, the record's primary file path and line
number are those of the FIRST such frame, and the stack-frame list keeps
encounter order over the line index (it is exactly the frame lines in
window order, stripped). -/
theorem c7_first_frame_primary (lines : List (List Char)) (i : Nat) (msg : List Char)
    (et : ErrType) (f : List Char) (rest : List (List Char))
    (h : frameLines (lookWindow lines i) = f :: rest) :
    (extractErrorContext lines i msg et).file_path = (firstStackMatch f).map Prod.fst ∧
    (extractErrorContext lines i msg et).line_number = (firstStackMatch f).map Prod.snd ∧
    (extractErrorContext lines i msg et).stack_trace = (f :: rest).map trimPy := by
  have hmem : f ∈ frameLines (lookWindow lines i) := by
    rw [h]; exact List.mem_cons_self _ _
  have hsome : (firstStackMatch f).isSome := by
    unfold frameLines at hmem
    exact (List.mem_filter.mp hmem).2
  obtain ⟨d, hd⟩ := Option.isSome_iff_exists.mp hsome
  obtain ⟨fv, nv⟩ := d
  have hffd : firstFrameData (lookWindow lines i) = some (fv, nv) := by
    unfold firstFrameData
    rw [h]
    exact hd
  refine ⟨?_, ?_, ?_⟩
  · show (lookahead (lookWindow lines i) none none []).1 = _
    rw [lookahead_eq]
    simp [primaryOf, fpFalsy, hffd, hd]
  · show (lookahead (lookWindow lines i) none none []).2.1 = _
    rw [lookahead_eq]
    simp [primaryOf, fpFalsy, hffd, hd]
  · show (lookahead (lookWindow lines i) none none []).2.2 = _
    rw [lookahead_eq, h]
    simp

theorem c7_first_frame_primary_witness :
    frameLines (lookWindow demoLinesC7 0)
      = [("  File \"a.py\", line 1").toList, ("  File \"b.py\", line 2").toList] ∧
    ((extractErrorContext demoLinesC7 0 (("ValueError: boom").toList)
        ErrType.python_error).file_path
      = (firstStackMatch (("  File \"a.py\", line 1").toList)).map Prod.fst ∧
    (extractErrorContext demoLinesC7 0 (("ValueError: boom").toList)
        ErrType.python_error).line_number
      = (firstStackMatch (("  File \"a.py\", line 1").toList)).map Prod.snd ∧
    (extractErrorContext demoLinesC7 0 (("ValueError: boom").toList)
        ErrType.python_error).stack_trace
      = ([("  File \"a.py\", line 1").toList, ("  File \"b.py\", line 2").toList]).map trimPy) :=
  ⟨rfl, c7_first_frame_primary demoLinesC7 0 (("ValueError: boom").toList)
    ErrType.python_error (("  File \"a.py\", line 1").toList)
    [("  File \"b.py\", line 2").toList] rfl⟩

/-- C8 (amended): the surrounding-context window is the slice of lines
from `max(0, i-5)` to `min(len, i+10)` exclusive - that is, the five
lines before the match, the MATCHED LINE ITSELF and up to NINE lines
after it - with blank lines dropped and each kept line stripped; hence
at most fifteen entries. -/
theorem c8_surrounding_window (lines : List (List Char)) (i : Nat) (msg : List Char)
    (et : ErrType) :
    (extractErrorContext lines i msg et).surrounding_context
      = (((lines.take (min lines.length (i + 10))).drop (i - 5)).filter
          (fun l => trimPy l != [])).map trimPy ∧
    (extractErrorContext lines i msg et).surrounding_context.length ≤ 15 := by
  have hMle : min lines.length (i + 10) ≤ i + 10 := Nat.min_le_right _ _
  have hslice : (lines.take (min lines.length (i + 10))).drop (i - 5)
      = (lines.drop (i - 5)).take (min lines.length (i + 10) - (i - 5)) := by
    by_cases hle : i - 5 ≤ min lines.length (i + 10)
    · conv_rhs => rw [List.take_drop]
      rw [Nat.add_sub_cancel' hle]
    · have hlt : min lines.length (i + 10) < i - 5 := Nat.lt_of_not_le hle
      have h0 : min lines.length (i + 10) - (i - 5) = 0 := Nat.sub_eq_zero_of_le (le_of_lt hlt)
      rw [h0, List.take_zero, List.drop_eq_nil_of_le]
      calc (lines.take (min lines.length (i + 10))).length
          ≤ min lines.length (i + 10) := by
            rw [List.length_take]; exact Nat.min_le_left _ _
        _ ≤ i - 5 := le_of_lt hlt
  refine ⟨?_, ?_⟩
  · show ((((lines.drop (i - 5)).take (min lines.length (i + 10) - (i - 5))).filter
        (fun l => trimPy l != [])).map trimPy) = _
    rw [hslice]
  · show ((((lines.drop (i - 5)).take (min lines.length (i + 10) - (i - 5))).filter
        (fun l => trimPy l != [])).map trimPy).length ≤ 15
    rw [List.length_map]
    calc (((lines.drop (i - 5)).take (min lines.length (i + 10) - (i - 5))).filter
            (fun l => trimPy l != [])).length
        ≤ ((lines.drop (i - 5)).take (min lines.length (i + 10) - (i - 5))).length :=
          List.length_filter_le _ _
      _ ≤ min lines.length (i + 10) - (i - 5) := by
          rw [List.length_take]
          exact Nat.min_le_left _ _
      _ ≤ (i + 10) - (i - 5) := Nat.sub_le_sub_right hMle _
      _ ≤ 15 := by omega

/-- C8 falsified as stated: at a match on index 0 of twelve distinct
non-blank lines, the claim's window (five lines before, ten after,
excluding the matched line) is lines 1-10, while the code records lines
0-9 (the matched line itself and only nine after). -/
theorem c8_surrounding_window_counterexample :
    (firstSignature (("TypeError: zero").toList)).map Prod.fst
      = some ErrType.python_error ∧
    (extractErrorContext demoLinesC8 0 (("TypeError: zero").toList)
        ErrType.python_error).surrounding_context
      ≠ surroundingWindowClaimC8 demoLinesC8 0 :=
  ⟨rfl, by decide⟩

/-- C5: with zero boundary markers the segmenter assigns no log content
to any step - the step list is returned untouched (first conjunct).  In
general the assigned contents are exactly the joined chunks, placed at
consecutive step indices from 0 in the original log order (second
conjunct); there are at most as many chunks as marker lines (third
conjunct); every assigned segment is non-empty (fourth conjunct); and
when a first marker exists, the chunks cover exactly the log from that
marker on, so all content before it is discarded (fifth conjunct). -/
theorem c5_segmenter (steps : List StepRun) (logs : List Char) :
    (List.countP markerLine (splitNL logs) = 0 → attachLogsToSteps steps logs = steps) ∧
    ((attachLogsToSteps steps logs).map StepRun.log_content
       = ((logChunks steps.length (splitNL logs)).map (fun c => some (joinNL c)))
         ++ ((steps.map StepRun.log_content).drop
              (logChunks steps.length (splitNL logs)).length)) ∧
    (logChunks steps.length (splitNL logs)).length
        ≤ List.countP markerLine (splitNL logs) ∧
    (∀ c ∈ logChunks steps.length (splitNL logs), joinNL c ≠ []) ∧
    (∀ pre l rest, splitNL logs = pre ++ l :: rest →
      (∀ p ∈ pre, markerLine p = false) → markerLine l = true → 0 < steps.length →
      (logChunks steps.length (splitNL logs)).flatten = l :: rest) := by
  refine ⟨?_, ?_, ?_, ?_, ?_⟩
  · intro hcnt
    exact attachAux_zero_no_eff steps.length (splitNL logs) [] steps
      (fun l hl hand => absurd hand.1 (by
        have := List.countP_eq_zero.mp hcnt l hl
        simpa using this))
  · exact attachAux_zero_map steps.length (splitNL logs) [] steps rfl
  · exact logChunks_length_le_count _ _
  · intro c hc
    obtain ⟨hd, tl, rfl, hmk⟩ := logChunks_heads_marker _ _ c hc
    exact joinNL_cons_ne_nil hd tl (markerLine_ne_nil hd hmk)
  · intro pre l rest heq hpre hl hn
    rw [heq]
    exact logChunks_flatten_suffix _ pre l rest hpre hl hn

theorem c5_segmenter_witness :
    attachLogsToSteps demoSteps2 (("no markers here\njust text").toList) = demoSteps2 ∧
    (logChunks demoSteps2.length (splitNL demoLogs)).flatten
      = ("##[group]checkout").toList
        :: [("co line").toList, ("##[group]build").toList, ("build line").toList] :=
  ⟨(c5_segmenter demoSteps2 (("no markers here\njust text").toList)).1 (by decide),
   (c5_segmenter demoSteps2 demoLogs).2.2.2.2 [("setup text").toList]
     (("##[group]checkout").toList)
     [("co line").toList, ("##[group]build").toList, ("build line").toList]
     (by decide) (by decide) (by decide) (by decide)⟩

/-- C10: every produced segment starts with the boundary marker line
that opened it - the marker belongs to the NEXT step's buffer, not the
preceding one's (first conjunct, with the placement fixed by the third
conjunct); at most `len(steps)` segments are ever produced, so a marker
met after the step list is exhausted opens no new segment (second
conjunct) and, by the coverage equation (fourth conjunct), its line
stays inside the last open buffer as ordinary content. -/
theorem c10_marker_starts_next_segment (steps : List StepRun) (logs : List Char) :
    (∀ c ∈ logChunks steps.length (splitNL logs),
      ∃ hd tl, c = hd :: tl ∧ markerLine hd = true) ∧
    (logChunks steps.length (splitNL logs)).length ≤ steps.length ∧
    ((attachLogsToSteps steps logs).map StepRun.log_content
       = ((logChunks steps.length (splitNL logs)).map (fun c => some (joinNL c)))
         ++ ((steps.map StepRun.log_content).drop
              (logChunks steps.length (splitNL logs)).length)) ∧
    (∀ pre l rest, splitNL logs = pre ++ l :: rest →
      (∀ p ∈ pre, markerLine p = false) → markerLine l = true → 0 < steps.length →
      (logChunks steps.length (splitNL logs)).flatten = l :: rest) :=
  ⟨fun c hc => logChunks_heads_marker _ _ c hc,
   logChunks_length_le _ _,
   attachAux_zero_map steps.length (splitNL logs) [] steps rfl,
   fun pre l rest heq hpre hl hn => by
     rw [heq]
     exact logChunks_flatten_suffix _ pre l rest hpre hl hn⟩

theorem c10_marker_starts_next_segment_witness :
    (∃ hd tl, (("##[group]build").toList :: [("build line").toList]) = hd :: tl
      ∧ markerLine hd = true) ∧
    (logChunks demoSteps2.length (splitNL demoLogs)).flatten
      = ("##[group]checkout").toList
        :: [("co line").toList, ("##[group]build").toList, ("build line").toList] :=
  ⟨(c10_marker_starts_next_segment demoSteps2 demoLogs).1
     (("##[group]build").toList :: [("build line").toList]) (by decide),
   (c10_marker_starts_next_segment demoSteps2 demoLogs).2.2.2 [("setup text").toList]
     (("##[group]checkout").toList)
     [("co line").toList, ("##[group]build").toList, ("build line").toList]
     (by decide) (by decide) (by decide) (by decide)⟩

end Cicd
